import Mathlib

/-!
Verification of the request-rewrite and error-signalling core of the
`override` HTTP proxy (src/main.go).

The proxy accepts semi-structured JSON documents, rewrites them
(model mapping, locale injection, field stripping, `max_tokens`
clamping), forwards them upstream, and relays or synthesizes a
response.  The Go code manipulates the document through the `gjson`
and `sjson` libraries; here the document is modelled as an ordered
association list of top-level fields holding JSON values, and the
handful of `gjson`/`sjson` operations the handlers use are embedded
with their library semantics (`Result.String`, `Result.Int`,
`Result.Array`, `Result.Exists`, top-level set/delete, and the one
nested set `messages.<i>.content` the chat handler performs).

JSON numbers are modelled as integers (the handlers only compare and
write integral token counts); string serialization elides character
escaping, which no claim inspects.
-/

/-- A JSON value, as the `gjson`/`sjson` layer sees it. -/
inductive JVal where
  | null : JVal
  | bool (b : Bool) : JVal
  | num (n : Int) : JVal
  | str (s : String) : JVal
  | arr (elems : List JVal) : JVal
  | obj (fields : List (String × JVal)) : JVal

/-- An inbound/outbound request document: the ordered top-level fields
of the JSON object the handlers rewrite. -/
abbrev JDoc := List (String × JVal)

/-- Look a top-level key up (first occurrence), as `gjson.GetBytes(body, key)`
does on a top-level object: `none` models a non-existent result. -/
def getKey : JDoc → String → Option JVal
  | [], _ => none
  | (k, v) :: rest, key => if k = key then some v else getKey rest key

/-- Embeds `Result.Exists()` for a top-level key. -/
def hasKey (d : JDoc) (key : String) : Bool :=
  (getKey d key).isSome

/-- Replace the value of an existing key in place. -/
def setKeyCore : JDoc → String → JVal → JDoc
  | [], _, _ => []
  | (k, v) :: rest, key, nv =>
    if k = key then (k, nv) :: setKeyCore rest key nv
    else (k, v) :: setKeyCore rest key nv

/-- Embeds `sjson.SetBytes(body, key, v)` for a top-level key: replace in place
when present, append when absent. -/
def setKey (d : JDoc) (key : String) (v : JVal) : JDoc :=
  if hasKey d key then setKeyCore d key v else d ++ [(key, v)]

/-- Embeds `sjson.DeleteBytes(body, key)` for a top-level key. -/
def deleteKey : JDoc → String → JDoc
  | [], _ => []
  | (k, v) :: rest, key =>
    if k = key then deleteKey rest key else (k, v) :: deleteKey rest key

mutual
/-- Raw JSON text of a value (character escaping elided; no claim
inspects serialized output).  `gjson`'s `Result.String()` returns this
raw form for composite values. -/
def serializeJ : JVal → String
  | .null => "null"
  | .bool true => "true"
  | .bool false => "false"
  | .num n => toString n
  | .str s => "\"" ++ s ++ "\""
  | .arr xs => "[" ++ serializeArr xs ++ "]"
  | .obj fs => "\x7b" ++ serializeFields fs ++ "\x7d"

/-- Comma-separated serialization of array elements. -/
def serializeArr : List JVal → String
  | [] => ""
  | [x] => serializeJ x
  | x :: rest => serializeJ x ++ "," ++ serializeArr rest

/-- Comma-separated serialization of object fields. -/
def serializeFields : List (String × JVal) → String
  | [] => ""
  | [(k, v)] => "\"" ++ k ++ "\":" ++ serializeJ v
  | (k, v) :: rest => "\"" ++ k ++ "\":" ++ serializeJ v ++ "," ++ serializeFields rest
end

/-- Embeds `gjson.Result.String()`: "" for null or non-existent, the literal
for strings, Go formatting for numbers and booleans, raw JSON for
composite values. -/
def gjsonString : Option JVal → String
  | none => ""
  | some .null => ""
  | some (.bool true) => "true"
  | some (.bool false) => "false"
  | some (.num n) => toString n
  | some (.str s) => s
  | some (.arr xs) => serializeJ (.arr xs)
  | some (.obj fs) => serializeJ (.obj fs)

/-- Embeds `gjson.Result.Int()`: the number for numeric results, 1/0 for
booleans, integer parse of a string (0 when unparsable; the library's
float fallback is elided), 0 otherwise. -/
def gjsonInt : Option JVal → Int
  | some (.num n) => n
  | some (.bool true) => 1
  | some (.str s) => (s.toInt?).getD 0
  | _ => 0

/-- Embeds `gjson.Result.Array()`: the elements of an array; empty for
null, non-existent, or an object (an object is `Type JSON`, and
`arrayOrMap('[', ...)` stops at its leading brace, yielding an empty
slice); a one-element array holding the result itself for a scalar. -/
def gjsonArray : Option JVal → List JVal
  | none => []
  | some .null => []
  | some (.arr xs) => xs
  | some (.obj _) => []
  | some v => [v]

/-- Embeds `Result.Get(key)` on one retrieved value: key lookup inside an
object, non-existent otherwise. -/
def jget : JVal → String → Option JVal
  | .obj fs, key => getKey fs key
  | _, _ => none

/-- Go `strings.Contains hay sub`. -/
def goContains (hay sub : String) : Bool :=
  hay.toList.tails.any (fun t => sub.toList.isPrefixOf t)

/-- The fixed instruct-model identifier (src/main.go line 23). -/
def InstructModel : String := "deepseek-coder"

/-- The rewrite-relevant part of the `config` structure
(src/main.go lines 27-44): the model map, default model, token
ceiling and locale for the chat endpoint.  `ChatMaxTokens` is a Go
`int` and may hold any integer. -/
structure Config where
  chatModelMap : List (String × String)
  chatModelDefault : String
  chatMaxTokens : Int
  chatLocale : String

/-- Go map access `cfg.ChatModelMap[model]` (`nil`-comma-ok form). -/
def lookupMap : List (String × String) → String → Option String
  | [], _ => none
  | (k, v) :: rest, key => if k = key then some v else lookupMap rest key

/-- Model resolution (src/main.go lines 190-195): read the `model`
field as a string, map it through `ChatModelMap`, fall back to
`ChatModelDefault` when unmapped. -/
def resolveModel (cfg : Config) (d : JDoc) : String :=
  match lookupMap cfg.chatModelMap (gjsonString (getKey d "model")) with
  | some mapped => mapped
  | none => cfg.chatModelDefault

/-- Line 197: `body, _ = sjson.SetBytes(body, "model", model)`. -/
def setModelStep (cfg : Config) (d : JDoc) : JDoc :=
  setKey d "model" (.str (resolveModel cfg d))

/-- The phrase line 203 searches for via `strings.Contains`. -/
def localePhrase : String := "Respond in the following locale"

/-- The locale chosen on lines 204-207: the configured one, or
`zh_CN` when it is empty. -/
def localeOf (cfg : Config) : String :=
  if cfg.chatLocale = "" then "zh_CN" else cfg.chatLocale

/-- One `sjson` write of path `<i>.content` into one retrieved message
value: replace the `content` field of an object; a non-object element
is replaced by an object holding only `content`. -/
def setContentInVal : JVal → String → JVal
  | .obj fs, s => .obj (setKey fs "content" (.str s))
  | _, s => .obj [("content", .str s)]

/-- Line 208: `sjson.SetBytes(body, "messages."+i+".content", s)`.
Only reached with `i` in bounds of `gjson`'s array view of
`messages`; a scalar `messages` value is viewed as its one-element
array (so `i = 0` there), and an object-valued `messages` has an empty
view, so that branch is never reached from `localeStep`. -/
def setMessagesContent (d : JDoc) (i : Nat) (s : String) : JDoc :=
  match getKey d "messages" with
  | some (.arr xs) => setKey d "messages" (.arr (xs.set i (setContentInVal (xs.getD i .null) s)))
  | some v => setKey d "messages" (.arr [setContentInVal v s])
  | none => d

/-- Locale injection (src/main.go lines 200-210).  When
`function_call` is absent the code indexes `messages[len-1]` with no
bounds check: on `gjson`'s empty array view that is index `-1`, a Go
slice panic, modelled as `none`. -/
def localeStep (cfg : Config) (d : JDoc) : Option JDoc :=
  if hasKey d "function_call" then some d
  else
    let messages := gjsonArray (getKey d "messages")
    let lastIndex := messages.length - 1
    match messages[lastIndex]? with
    | none => none
    | some lastMsg =>
      let content := gjsonString (jget lastMsg "content")
      if goContains content localePhrase then some d
      else some (setMessagesContent d lastIndex
        (content ++ "Respond in the following locale: " ++ localeOf cfg ++ "."))

/-- Lines 212-214: unconditional deletion of the three intent fields. -/
def stripIntent (d : JDoc) : JDoc :=
  deleteKey (deleteKey (deleteKey d "intent") "intent_threshold") "intent_content"

/-- Lines 216-218: clamp `max_tokens` to `ChatMaxTokens` whenever its
`Int()` reading exceeds the ceiling (an absent field reads as 0). -/
def clampStep (cfg : Config) (d : JDoc) : JDoc :=
  if gjsonInt (getKey d "max_tokens") > cfg.chatMaxTokens then
    setKey d "max_tokens" (.num cfg.chatMaxTokens)
  else d

/-- The whole chat-document rewrite performed by `completions`
(src/main.go lines 190-218), in source order: model resolution, locale
injection (which may panic, giving `none`), intent stripping,
`max_tokens` clamping. -/
def chatRewrite (cfg : Config) (d : JDoc) : Option JDoc :=
  (localeStep cfg (setModelStep cfg d)).map (fun b => clampStep cfg (stripIntent b))

/-- The codex-document rewrite performed by `codeCompletions`
(src/main.go lines 290-292): delete `extra` and `nwo`, force `model`
to the fixed instruct identifier. -/
def codexRewrite (d : JDoc) : JDoc :=
  setKey (deleteKey (deleteKey d "extra") "nwo") "model" (.str InstructModel)

/-- What the handler writes back: status code, the `Content-Type`
header when the handler sets one, and the body. -/
structure HttpResponse where
  status : Nat
  contentType : Option String
  body : String
deriving DecidableEq, Repr

/-- Outcome of `io.ReadAll(c.Request.Body)`: the parsed document, or a
read error. -/
inductive ReadResult where
  | ok (d : JDoc) : ReadResult
  | err : ReadResult

/-- Outcome of `http.NewRequestWithContext`. -/
inductive BuildOutcome where
  | ok : BuildOutcome
  | err : BuildOutcome

/-- Outcome of `s.client.Do(req)`: a transport error (with whether
`errors.Is(err, context.Canceled)` holds, and its message), or an
upstream response carrying status, `Content-Type` header value
(possibly empty) and body. -/
inductive UpstreamResult where
  | transportErr (canceled : Bool) (msg : String) : UpstreamResult
  | ok (status : Nat) (contentType : String) (body : String) : UpstreamResult

/-- Embeds `abortCodex` (src/main.go lines 134-141): the SSE sentinel
response at a given status — `Content-Type: text/event-stream`, body
exactly `data: [DONE]\n`, then `c.Abort()`. -/
def abortCodex (status : Nat) : HttpResponse :=
  ⟨status, some "text/event-stream", "data: [DONE]\n"⟩

/-- Relay of an upstream response (chat lines 259-267, codex lines
334-342): copy the status, propagate `Content-Type` only when the
upstream sent a non-empty one, stream the body. -/
def relayResponse (status : Nat) (contentType body : String) : HttpResponse :=
  ⟨status, if contentType = "" then none else some contentType, body⟩

/-- The `completions` chat handler (src/main.go lines 179-268) as a
function of its three effectful outcomes, returning the response
written to the caller and the log lines emitted — or `none` when the
rewrite panics on the out-of-range `messages` index (lines 200-210).
Unreadable body → bare 400; failed request build → bare 500;
`context.Canceled` transport error → bare 408; other transport error
→ bare 500, logged with its message; non-200 upstream → status,
content-type and body relayed verbatim, upstream body logged;
200 upstream → relayed verbatim. -/
def completions (cfg : Config) (read : ReadResult) (build : BuildOutcome)
    (upstream : UpstreamResult) : Option (HttpResponse × List String) :=
  match read with
  | .err => some (⟨400, none, ""⟩, [])
  | .ok d =>
    match chatRewrite cfg d with
    | none => none
    | some _rewritten =>
      match build with
      | .err => some (⟨500, none, ""⟩, [])
      | .ok =>
        match upstream with
        | .transportErr true _ => some (⟨408, none, ""⟩, [])
        | .transportErr false msg =>
          some (⟨500, none, ""⟩, ["request conversation failed: " ++ msg])
        | .ok status ct b =>
          if status ≠ 200 then
            some (relayResponse status ct b, ["request completions failed: " ++ b])
          else
            some (relayResponse status ct b, [])

/-- The `codeCompletions` codex handler (src/main.go lines 271-343) as
a function of its effectful outcomes.  `canceledAfterDelay` is whether
`ctx.Err()` is non-nil after the fixed 100 ms delay.  Every failure
goes through `abortCodex`: cancellation after the delay → 408;
unreadable body → 400; failed request build → 500; `context.Canceled`
transport error → 408; other transport error → 500, logged; non-200
upstream → sentinel at the upstream status, upstream body logged.
Only a 200 upstream is relayed verbatim. -/
def codeCompletions (canceledAfterDelay : Bool) (read : ReadResult)
    (build : BuildOutcome) (upstream : UpstreamResult) : HttpResponse × List String :=
  if canceledAfterDelay then (abortCodex 408, [])
  else
    match read with
    | .err => (abortCodex 400, [])
    | .ok d =>
      let _rewritten := codexRewrite d
      match build with
      | .err => (abortCodex 500, [])
      | .ok =>
        match upstream with
        | .transportErr true _ => (abortCodex 408, [])
        | .transportErr false msg =>
          (abortCodex 500, ["request completions failed: " ++ msg])
        | .ok status ct b =>
          if status ≠ 200 then
            (abortCodex status, ["request completions failed: " ++ b])
          else
            (relayResponse status ct b, [])

/-! ### Access lemmas for the document operations -/

theorem getKey_setKeyCore_self (d : JDoc) (key : String) (v : JVal)
    (h : hasKey d key = true) : getKey (setKeyCore d key v) key = some v := by
  induction d with
  | nil => simp [hasKey, getKey] at h
  | cons p rest ih =>
    obtain ⟨k, w⟩ := p
    by_cases hk : k = key
    · simp [setKeyCore, getKey, hk]
    · simp [setKeyCore, getKey, hk] at h ⊢
      exact ih (by simpa [hasKey, getKey, hk] using h)

theorem getKey_setKeyCore_ne (d : JDoc) (key k2 : String) (v : JVal)
    (h : k2 ≠ key) : getKey (setKeyCore d key v) k2 = getKey d k2 := by
  induction d with
  | nil => rfl
  | cons p rest ih =>
    obtain ⟨k, w⟩ := p
    by_cases hk : k = key
    · subst hk
      simp [setKeyCore, getKey, Ne.symm h, ih]
    · by_cases hk2 : k = k2 <;> simp [setKeyCore, getKey, hk, hk2, h, ih]

theorem getKey_append_of_none (d l : JDoc) (key : String)
    (h : getKey d key = none) : getKey (d ++ l) key = getKey l key := by
  induction d with
  | nil => rfl
  | cons p rest ih =>
    obtain ⟨k, w⟩ := p
    by_cases hk : k = key
    · simp [getKey, hk] at h
    · simp [getKey, hk] at h ⊢
      exact ih h

theorem getKey_append_singleton_ne (d : JDoc) (key k2 : String) (v : JVal)
    (h : k2 ≠ key) : getKey (d ++ [(key, v)]) k2 = getKey d k2 := by
  induction d with
  | nil => simp [getKey, Ne.symm h]
  | cons p rest ih =>
    obtain ⟨k, w⟩ := p
    by_cases hk : k = k2 <;> simp [getKey, hk, ih]

theorem getKey_of_not_hasKey (d : JDoc) (key : String)
    (h : ¬ hasKey d key = true) : getKey d key = none := by
  cases hcase : getKey d key with
  | none => rfl
  | some w => exact absurd (by simp [hasKey, hcase]) h

/-- The operation `setKey` writes its key and leaves every other key alone. -/
theorem getKey_setKey (d : JDoc) (key k2 : String) (v : JVal) :
    getKey (setKey d key v) k2 = if k2 = key then some v else getKey d k2 := by
  unfold setKey
  by_cases hh : hasKey d key = true
  · by_cases h2 : k2 = key
    · rw [if_pos h2, h2]
      simp [hh, getKey_setKeyCore_self d key v hh]
    · simp [hh, h2, getKey_setKeyCore_ne d key k2 v h2]
  · have hnone := getKey_of_not_hasKey d key hh
    by_cases h2 : k2 = key
    · rw [if_pos h2, h2]
      simp [hh, getKey_append_of_none d _ key hnone, getKey]
    · simp [hh, h2, getKey_append_singleton_ne d key k2 v h2]

theorem getKey_deleteKey_self (d : JDoc) (key : String) :
    getKey (deleteKey d key) key = none := by
  induction d with
  | nil => rfl
  | cons p rest ih =>
    obtain ⟨k, w⟩ := p
    by_cases hk : k = key <;> simp [deleteKey, getKey, hk, ih]

theorem getKey_deleteKey_ne (d : JDoc) (key k2 : String)
    (h : k2 ≠ key) : getKey (deleteKey d key) k2 = getKey d k2 := by
  induction d with
  | nil => rfl
  | cons p rest ih =>
    obtain ⟨k, w⟩ := p
    by_cases hk : k = key
    · subst hk
      simp [deleteKey, getKey, Ne.symm h, ih]
    · by_cases hk2 : k = k2 <;> simp [deleteKey, getKey, hk, hk2, h, ih]

/-- The operation `deleteKey` removes its key and leaves every other key alone. -/
theorem getKey_deleteKey (d : JDoc) (key k2 : String) :
    getKey (deleteKey d key) k2 = if k2 = key then none else getKey d k2 := by
  by_cases h2 : k2 = key
  · rw [if_pos h2, h2]
    exact getKey_deleteKey_self d key
  · simp [h2, getKey_deleteKey_ne d key k2 h2]

/-! ### Step-preservation lemmas -/

/-- The content of the last message as the handler reads it: `gjson`'s
array view of `messages`, its last element, that element's `content`
as a string. -/
def lastMessageContent (d : JDoc) : String :=
  match (gjsonArray (getKey d "messages")).getLast? with
  | none => ""
  | some m => gjsonString (jget m "content")

theorem getKey_setModelStep_ne (cfg : Config) (d : JDoc) (k2 : String)
    (h : k2 ≠ "model") : getKey (setModelStep cfg d) k2 = getKey d k2 := by
  simp [setModelStep, getKey_setKey, h]

theorem getKey_setMessagesContent_ne (d : JDoc) (i : Nat) (s : String) (k2 : String)
    (h : k2 ≠ "messages") : getKey (setMessagesContent d i s) k2 = getKey d k2 := by
  unfold setMessagesContent
  cases hm : getKey d "messages" with
  | none => rfl
  | some v => cases v <;> simp [getKey_setKey, h]

theorem localeStep_getKey_ne (cfg : Config) (d d2 : JDoc) (k2 : String)
    (h : localeStep cfg d = some d2) (hk : k2 ≠ "messages") :
    getKey d2 k2 = getKey d k2 := by
  by_cases hfc : hasKey d "function_call" = true
  · simp [localeStep, hfc] at h
    rw [h]
  · cases hlast : (gjsonArray (getKey d "messages"))[(gjsonArray (getKey d "messages")).length - 1]? with
    | none => simp [localeStep, hfc, hlast] at h
    | some lastMsg =>
      by_cases hct : goContains (gjsonString (jget lastMsg "content")) localePhrase = true
      · simp [localeStep, hfc, hlast, hct] at h
        rw [h]
      · simp [localeStep, hfc, hlast, hct] at h
        rw [← h, getKey_setMessagesContent_ne _ _ _ _ hk]

theorem getKey_stripIntent_ne (d : JDoc) (k2 : String)
    (h1 : k2 ≠ "intent") (h2 : k2 ≠ "intent_threshold") (h3 : k2 ≠ "intent_content") :
    getKey (stripIntent d) k2 = getKey d k2 := by
  simp [stripIntent, getKey_deleteKey, h1, h2, h3]

theorem getKey_clampStep_ne (cfg : Config) (d : JDoc) (k2 : String)
    (h : k2 ≠ "max_tokens") : getKey (clampStep cfg d) k2 = getKey d k2 := by
  unfold clampStep
  split <;> simp [getKey_setKey, h]

theorem chatRewrite_some_elim (cfg : Config) (d out : JDoc)
    (h : chatRewrite cfg d = some out) :
    ∃ b, localeStep cfg (setModelStep cfg d) = some b ∧ out = clampStep cfg (stripIntent b) := by
  unfold chatRewrite at h
  cases hl : localeStep cfg (setModelStep cfg d) with
  | none => rw [hl] at h; simp at h
  | some b =>
    rw [hl] at h
    simp only [Option.map_some'] at h
    exact ⟨b, rfl, (Option.some_inj.mp h).symm⟩

/-! ### Locale-injection lemmas -/

theorem goContains_append_middle (c mid b : String) :
    goContains (c ++ (mid ++ b)) mid = true := by
  unfold goContains
  rw [List.any_eq_true]
  refine ⟨mid.toList ++ b.toList, ?_, List.isPrefixOf_iff_prefix.mpr (List.prefix_append _ _)⟩
  rw [List.mem_tails]
  have hl : (c ++ (mid ++ b)).toList = c.toList ++ (mid.toList ++ b.toList) := by
    simp [String.toList, String.data_append]
  rw [hl]
  exact List.suffix_append _ _

/-- The appended locale instruction always contains the phrase the
code searches for, which is what makes the injection fire at most
once. -/
theorem goContains_locale_suffix (c locale : String) :
    goContains (c ++ "Respond in the following locale: " ++ locale ++ ".") localePhrase = true := by
  unfold goContains
  rw [List.any_eq_true]
  refine ⟨localePhrase.toList ++ ((": " : String).toList ++ locale.toList ++ ("." : String).toList),
    ?_, List.isPrefixOf_iff_prefix.mpr (List.prefix_append _ _)⟩
  rw [List.mem_tails]
  simp only [String.toList]
  have hl : (c ++ "Respond in the following locale: " ++ locale ++ ".").data
      = c.data ++ (localePhrase.data ++ ((": " : String).data ++ locale.data ++ ("." : String).data)) := by
    simp [String.data_append, localePhrase]
  rw [hl]
  exact List.suffix_append _ _

theorem jget_setContentInVal (v : JVal) (s : String) :
    jget (setContentInVal v s) "content" = some (.str s) := by
  cases v <;> simp [setContentInVal, jget, getKey_setKey, getKey]

theorem getLast?_set_last {α : Type} (xs : List α) (v : α) (h : xs ≠ []) :
    (xs.set (xs.length - 1) v).getLast? = some v := by
  rw [List.getLast?_eq_getElem?, List.length_set]
  have hlt : xs.length - 1 < xs.length := by
    cases xs with
    | nil => exact absurd rfl h
    | cons x rest => simp
  simp [List.getElem?_set_eq_of_lt v hlt]

theorem lastMessageContent_congr (d1 d2 : JDoc)
    (h : getKey d1 "messages" = getKey d2 "messages") :
    lastMessageContent d1 = lastMessageContent d2 := by
  unfold lastMessageContent
  rw [h]

/-- Reading `setKey` at its own key. -/
theorem getKey_setKey_self (d : JDoc) (key : String) (v : JVal) :
    getKey (setKey d key v) key = some v := by
  rw [getKey_setKey]
  simp

theorem lastMessageContent_setKey_arr (d : JDoc) (xs : List JVal) (m : JVal)
    (h : xs.getLast? = some m) :
    lastMessageContent (setKey d "messages" (.arr xs)) = gjsonString (jget m "content") := by
  unfold lastMessageContent
  rw [getKey_setKey_self]
  simp only [gjsonArray]
  rw [h]

/-- Writing content `s` into the last message (as line 208 does) makes
the last message's content read back as exactly `s`. -/
theorem lastMessageContent_setMessagesContent (d : JDoc) (s : String)
    (hne : gjsonArray (getKey d "messages") ≠ []) :
    lastMessageContent
      (setMessagesContent d ((gjsonArray (getKey d "messages")).length - 1) s) = s := by
  cases hm : getKey d "messages" with
  | none => rw [hm] at hne; simp [gjsonArray] at hne
  | some v =>
    cases v with
    | null => rw [hm] at hne; simp [gjsonArray] at hne
    | arr xs =>
      have hxs : xs ≠ [] := by
        rw [hm] at hne
        simpa [gjsonArray] using hne
      have hstep : setMessagesContent d ((gjsonArray (some (JVal.arr xs))).length - 1) s
          = setKey d "messages"
              (.arr (xs.set (xs.length - 1) (setContentInVal (xs.getD (xs.length - 1) .null) s))) := by
        unfold setMessagesContent
        rw [hm]
        simp only [gjsonArray]
      rw [hstep,
        lastMessageContent_setKey_arr _ _ _ (getLast?_set_last xs _ hxs),
        jget_setContentInVal]
      rfl
    | bool b =>
      have hstep : setMessagesContent d ((gjsonArray (some (JVal.bool b))).length - 1) s
          = setKey d "messages" (.arr [setContentInVal (.bool b) s]) := by
        unfold setMessagesContent
        rw [hm]
      rw [hstep,
        lastMessageContent_setKey_arr d [setContentInVal (.bool b) s]
          (setContentInVal (.bool b) s) rfl,
        jget_setContentInVal]
      rfl
    | num n =>
      have hstep : setMessagesContent d ((gjsonArray (some (JVal.num n))).length - 1) s
          = setKey d "messages" (.arr [setContentInVal (.num n) s]) := by
        unfold setMessagesContent
        rw [hm]
      rw [hstep,
        lastMessageContent_setKey_arr d [setContentInVal (.num n) s]
          (setContentInVal (.num n) s) rfl,
        jget_setContentInVal]
      rfl
    | str s2 =>
      have hstep : setMessagesContent d ((gjsonArray (some (JVal.str s2))).length - 1) s
          = setKey d "messages" (.arr [setContentInVal (.str s2) s]) := by
        unfold setMessagesContent
        rw [hm]
      rw [hstep,
        lastMessageContent_setKey_arr d [setContentInVal (.str s2) s]
          (setContentInVal (.str s2) s) rfl,
        jget_setContentInVal]
      rfl
    | obj fs =>
      rw [hm] at hne
      simp [gjsonArray] at hne

/-- Full characterization of the locale-injection branch
(src/main.go lines 200-210) on a document that does not panic:
untouched when `function_call` is present, untouched when the last
message already contains the phrase, otherwise the locale instruction
is appended to the last message's content. -/
theorem localeStep_characterization (cfg : Config) (d d2 : JDoc)
    (h : localeStep cfg d = some d2) :
    (hasKey d "function_call" = true ∧ d2 = d) ∨
    (hasKey d "function_call" = false ∧
      goContains (lastMessageContent d) localePhrase = true ∧ d2 = d) ∨
    (hasKey d "function_call" = false ∧
      goContains (lastMessageContent d) localePhrase = false ∧
      lastMessageContent d2 =
        lastMessageContent d ++ "Respond in the following locale: " ++ localeOf cfg ++ ".") := by
  by_cases hfc : hasKey d "function_call" = true
  · left
    simp [localeStep, hfc] at h
    exact ⟨hfc, h.symm⟩
  · right
    cases hlast : (gjsonArray (getKey d "messages"))[(gjsonArray (getKey d "messages")).length - 1]? with
    | none => simp [localeStep, hfc, hlast] at h
    | some lastMsg =>
      have hlm : lastMessageContent d = gjsonString (jget lastMsg "content") := by
        unfold lastMessageContent
        rw [List.getLast?_eq_getElem?, hlast]
      by_cases hct : goContains (gjsonString (jget lastMsg "content")) localePhrase = true
      · left
        simp [localeStep, hfc, hlast, hct] at h
        exact ⟨by simpa using hfc, by rw [hlm]; exact hct, h.symm⟩
      · right
        have hne : gjsonArray (getKey d "messages") ≠ [] := by
          intro hnil
          rw [hnil] at hlast
          simp at hlast
        simp [localeStep, hfc, hlast, hct] at h
        refine ⟨by simpa using hfc, by rw [hlm]; simpa using hct, ?_⟩
        rw [← h, hlm]
        exact lastMessageContent_setMessagesContent d _ hne

/-- The chat rewrite changes the last message's content exactly when
`function_call` is absent and the phrase is missing, and then by
appending the locale instruction once. -/
theorem chatRewrite_lastMessageContent (cfg : Config) (d out : JDoc)
    (h : chatRewrite cfg d = some out) :
    (hasKey d "function_call" = true ∧ lastMessageContent out = lastMessageContent d) ∨
    (hasKey d "function_call" = false ∧
      goContains (lastMessageContent d) localePhrase = true ∧
      lastMessageContent out = lastMessageContent d) ∨
    (hasKey d "function_call" = false ∧
      goContains (lastMessageContent d) localePhrase = false ∧
      lastMessageContent out =
        lastMessageContent d ++ "Respond in the following locale: " ++ localeOf cfg ++ ".") := by
  obtain ⟨b, hl, hout⟩ := chatRewrite_some_elim cfg d out h
  have hout_lmc : lastMessageContent out = lastMessageContent b := by
    rw [hout]
    apply lastMessageContent_congr
    rw [getKey_clampStep_ne _ _ _ (by decide),
      getKey_stripIntent_ne _ _ (by decide) (by decide) (by decide)]
  have hsm_lmc : lastMessageContent (setModelStep cfg d) = lastMessageContent d := by
    apply lastMessageContent_congr
    rw [getKey_setModelStep_ne _ _ _ (by decide)]
  have hsm_fc : hasKey (setModelStep cfg d) "function_call" = hasKey d "function_call" := by
    unfold hasKey
    rw [getKey_setModelStep_ne _ _ _ (by decide)]
  rcases localeStep_characterization cfg _ b hl with ⟨h1, h2⟩ | ⟨h1, h2, h3⟩ | ⟨h1, h2, h3⟩
  · left
    exact ⟨by rw [← hsm_fc]; exact h1, by rw [hout_lmc, h2, hsm_lmc]⟩
  · right; left
    exact ⟨by rw [← hsm_fc]; exact h1, by rw [← hsm_lmc]; exact h2,
      by rw [hout_lmc, h3, hsm_lmc]⟩
  · right; right
    exact ⟨by rw [← hsm_fc]; exact h1, by rw [← hsm_lmc]; exact h2,
      by rw [hout_lmc, h3, hsm_lmc]⟩

/-- The whole chat rewrite leaves `function_call` alone. -/
theorem chatRewrite_getKey_function_call (cfg : Config) (d out : JDoc)
    (h : chatRewrite cfg d = some out) :
    getKey out "function_call" = getKey d "function_call" := by
  obtain ⟨b, hl, hout⟩ := chatRewrite_some_elim cfg d out h
  rw [hout, getKey_clampStep_ne _ _ _ (by decide),
    getKey_stripIntent_ne _ _ (by decide) (by decide) (by decide),
    localeStep_getKey_ne cfg _ b _ hl (by decide),
    getKey_setModelStep_ne _ _ _ (by decide)]

/-- The spec's example configuration: empty map, default
`deepseek-coder`, unconfigured locale. -/
def cfgZero : Config := ⟨[], "deepseek-coder", 4096, ""⟩

/-- The spec's example inbound document. -/
def dZero : JDoc :=
  [("model", .str "gpt-4"), ("messages", .arr [.obj [("content", .str "hi")]])]

/-- The rewrite of `dZero` under `cfgZero`. -/
def outZero : JDoc := (chatRewrite cfgZero dZero).getD []

/-- A second pass of the rewrite over `outZero`. -/
def outZero2 : JDoc := (chatRewrite cfgZero outZero).getD []

/-! ### The claims -/

/-- C8: locale injection is idempotent — a second pass of the chat
rewrite never appends a second locale instruction, and a single pass
appends at most one. -/
theorem chat_locale_idempotent (cfg : Config) (d out out2 : JDoc)
    (h1 : chatRewrite cfg d = some out) (h2 : chatRewrite cfg out = some out2) :
    lastMessageContent out2 = lastMessageContent out ∧
    (lastMessageContent out = lastMessageContent d ∨
      lastMessageContent out =
        lastMessageContent d ++ "Respond in the following locale: " ++ localeOf cfg ++ ".") := by
  have hfc : hasKey out "function_call" = hasKey d "function_call" := by
    unfold hasKey
    rw [chatRewrite_getKey_function_call cfg d out h1]
  have hc1 := chatRewrite_lastMessageContent cfg d out h1
  have hc2 := chatRewrite_lastMessageContent cfg out out2 h2
  constructor
  · rcases hc2 with ⟨_, he⟩ | ⟨_, _, he⟩ | ⟨hb, hg, he⟩
    · exact he
    · exact he
    · -- second pass claims the phrase is absent from `out`: impossible
      rcases hc1 with ⟨ha, hlm⟩ | ⟨ha, hg1, hlm⟩ | ⟨ha, hg1, hlm⟩
      · rw [hfc, ha] at hb
        exact absurd hb (by simp)
      · rw [hlm, hg1] at hg
        exact Bool.noConfusion hg
      · rw [hlm, goContains_locale_suffix] at hg
        exact Bool.noConfusion hg
  · rcases hc1 with ⟨_, hlm⟩ | ⟨_, _, hlm⟩ | ⟨_, _, hlm⟩
    · exact Or.inl hlm
    · exact Or.inl hlm
    · exact Or.inr hlm

/-- C8 witness: a second pass over the rewritten example document
leaves the last message's content unchanged. -/
theorem chat_locale_idempotent_witness :
    lastMessageContent outZero2 = lastMessageContent outZero :=
  (chat_locale_idempotent cfgZero dZero outZero outZero2 rfl rfl).1

theorem localeStep_isSome_iff (cfg : Config) (d : JDoc) :
    (localeStep cfg d).isSome = true ↔
      (hasKey d "function_call" = true ∨ gjsonArray (getKey d "messages") ≠ []) := by
  by_cases hfc : hasKey d "function_call" = true
  · simp [localeStep, hfc]
  · cases hxs : gjsonArray (getKey d "messages") with
    | nil => simp [localeStep, hfc, hxs]
    | cons x rest =>
      have hlt : (x :: rest).length - 1 < (x :: rest).length := by simp
      obtain ⟨m, hm⟩ : ∃ m, (x :: rest)[(x :: rest).length - 1]? = some m :=
        ⟨_, List.getElem?_eq_getElem hlt⟩
      constructor
      · intro _
        exact Or.inr (by simp)
      · intro _
        have hfcF : hasKey d "function_call" = false := by simpa using hfc
        simp only [localeStep, hfcF, Bool.false_eq_true, if_false, hxs, hm]
        split <;> simp

/-- C10: the chat rewrite's unguarded `messages[len-1]` access is in
bounds exactly when the document has a `function_call` field or
`gjson`'s array view of `messages` is non-empty; a document with an
absent, null, object-valued or empty `messages` array and no
`function_call` makes the handler panic (`none`). -/
theorem chat_messages_bounds (cfg : Config) (d : JDoc) :
    (chatRewrite cfg d).isSome = true ↔
      (hasKey d "function_call" = true ∨ gjsonArray (getKey d "messages") ≠ []) := by
  have hfc : hasKey (setModelStep cfg d) "function_call" = hasKey d "function_call" := by
    unfold hasKey
    rw [getKey_setModelStep_ne _ _ _ (by decide)]
  have hmsg : getKey (setModelStep cfg d) "messages" = getKey d "messages" :=
    getKey_setModelStep_ne _ _ _ (by decide)
  have hiff := localeStep_isSome_iff cfg (setModelStep cfg d)
  rw [hfc, hmsg] at hiff
  rw [← hiff]
  unfold chatRewrite
  cases localeStep cfg (setModelStep cfg d) <;> simp

/-- C4: on a non-200 upstream status, the chat endpoint relays the
upstream's status, content-type and body verbatim, while the codex
endpoint relays the status but substitutes the SSE sentinel body; both
log the upstream body. -/
theorem upstream_non_ok_relay (cfg : Config) (d rw2 : JDoc) (s : Nat) (ct b : String)
    (hrw : chatRewrite cfg d = some rw2) (hs : s ≠ 200) :
    completions cfg (.ok d) .ok (.ok s ct b) =
      some (relayResponse s ct b, ["request completions failed: " ++ b]) ∧
    codeCompletions false (.ok d) .ok (.ok s ct b) =
      (abortCodex s, ["request completions failed: " ++ b]) := by
  constructor
  · simp [completions, hrw, hs]
  · simp [codeCompletions, hs]

/-- C4 witness: the spec's example — a 503 with a JSON error body is
relayed as-is by the chat endpoint and turned into the sentinel at 503
by the codex endpoint. -/
theorem upstream_non_ok_relay_witness :
    completions cfgZero (.ok dZero) .ok (.ok 503 "application/json" "rate limited") =
      some (relayResponse 503 "application/json" "rate limited",
        ["request completions failed: rate limited"]) ∧
    codeCompletions false (.ok dZero) .ok (.ok 503 "application/json" "rate limited") =
      (abortCodex 503, ["request completions failed: rate limited"]) :=
  upstream_non_ok_relay cfgZero dZero outZero 503 "application/json" "rate limited" rfl
    (by decide)

/-- C5: every failure of the codex endpoint — cancellation after the
initial delay, unreadable body, failed request build, transport error,
or non-200 upstream — answers with `Content-Type: text/event-stream`
and the exact body `data: [DONE]\n`; cancellation during the delay
yields status 408. -/
theorem codex_failure_sentinel (canc : Bool) (read : ReadResult) (build : BuildOutcome)
    (u : UpstreamResult)
    (hfail : canc = true ∨ read = .err ∨ build = .err ∨
      (∃ c m, u = .transportErr c m) ∨ (∃ s ct b2, u = .ok s ct b2 ∧ s ≠ 200)) :
    ((codeCompletions canc read build u).1.contentType = some "text/event-stream" ∧
      (codeCompletions canc read build u).1.body = "data: [DONE]\n") ∧
    (canc = true → (codeCompletions canc read build u).1.status = 408) := by
  cases canc with
  | true => simp [codeCompletions, abortCodex]
  | false =>
    refine ⟨?_, fun hcontra => Bool.noConfusion hcontra⟩
    cases read with
    | err => simp [codeCompletions, abortCodex]
    | ok d =>
      cases build with
      | err => simp [codeCompletions, abortCodex]
      | ok =>
        cases u with
        | transportErr c m => cases c <;> simp [codeCompletions, abortCodex]
        | ok s ct b2 =>
          by_cases hs : s = 200
          · subst hs
            rcases hfail with hX | hX | hX | ⟨c, m, hX⟩ | ⟨s2, ct2, b3, hX, hne⟩ <;>
              simp_all
          · simp [codeCompletions, abortCodex, hs]

/-- C5 witness: a request cancelled during the initial delay gets
status 408, SSE content-type, and the sentinel body. -/
theorem codex_failure_sentinel_witness :
    (((codeCompletions true .err .ok (.ok 200 "" "")).1.contentType =
        some "text/event-stream" ∧
      (codeCompletions true .err .ok (.ok 200 "" "")).1.body = "data: [DONE]\n") ∧
    (true = true → (codeCompletions true .err .ok (.ok 200 "" "")).1.status = 408)) :=
  codex_failure_sentinel true .err .ok (.ok 200 "" "") (Or.inl rfl)

/-- C7: both endpoints classify failures identically — unreadable body
→ 400, failed request build → 500, cancelled upstream call → 408, any
other transport failure → 500 logged with its cause. -/
theorem error_status_classification (cfg : Config) (d rw2 : JDoc) (build : BuildOutcome)
    (u : UpstreamResult) (msg : String) (hrw : chatRewrite cfg d = some rw2) :
    (completions cfg .err build u = some (⟨400, none, ""⟩, []) ∧
      (codeCompletions false .err build u).1.status = 400) ∧
    (completions cfg (.ok d) .err u = some (⟨500, none, ""⟩, []) ∧
      (codeCompletions false (.ok d) .err u).1.status = 500) ∧
    (completions cfg (.ok d) .ok (.transportErr true msg) = some (⟨408, none, ""⟩, []) ∧
      (codeCompletions false (.ok d) .ok (.transportErr true msg)).1.status = 408) ∧
    (completions cfg (.ok d) .ok (.transportErr false msg) =
        some (⟨500, none, ""⟩, ["request conversation failed: " ++ msg]) ∧
      codeCompletions false (.ok d) .ok (.transportErr false msg) =
        (abortCodex 500, ["request completions failed: " ++ msg])) := by
  refine ⟨⟨?_, ?_⟩, ⟨?_, ?_⟩, ⟨?_, ?_⟩, ⟨?_, ?_⟩⟩ <;>
    simp [completions, codeCompletions, abortCodex, hrw]

/-- C7 witness: an unreadable inbound body yields a bare 400 from the
chat endpoint. -/
theorem error_status_classification_witness :
    completions cfgZero .err .ok (.ok 200 "" "") = some (⟨400, none, ""⟩, []) :=
  (error_status_classification cfgZero dZero outZero .ok (.ok 200 "" "") "boom" rfl).1.1
